import Mathlib

/-!
Verification of the Scraping_Scripts pipeline: shallow embeddings of the
pure cores of the pipeline stages (dedup, chunking, URL building, CSV
conversion, storage selection, the SQLite page store and the embedding
batcher), together with theorems settling the specification claims.
-/

set_option maxRecDepth 4000

/-! ## Generic string helpers -/

/-- Substring test on character lists: models the Python `pat in s`
membership test for strings. -/
def listHasSub (pat : List Char) : List Char → Bool
  | [] => pat.isEmpty
  | c :: t => pat.isPrefixOf (c :: t) || listHasSub pat t

/-- Models Python `pat in s` (substring containment). -/
def strContains (s pat : String) : Bool := listHasSub pat.data s.data

/-! ## storage_strategies.get_storage_strategy (factory) -/

/-- The three storage backends that `get_storage_strategy` can construct,
with the construction arguments the Python code passes to each. -/
inductive StorageKind where
  | gcs (bucket : String) ( gcs_path_prefix : String)
  | sqlite (db_path : String)
  | localFS (local_storage_path : String)
deriving DecidableEq, Repr

/-- Embeds `get_storage_strategy(env, output_dir, step_context)` from
`storage_strategies.py`.  `bucket` stands for `config.GCS_BUCKET_NAME` and
`projectRoot` for `pathlib.Path(__file__).parent`; the pathlib `/` join is
modelled as concatenation with a single slash. -/
def get_storage_strategy (bucket projectRoot env output_dir step_context : String) :
    StorageKind :=
  if env = "production" then
    StorageKind.gcs bucket output_dir
  else if step_context = "step4" then
    StorageKind.sqlite (projectRoot ++ "/" ++ output_dir ++ "/scraped_data.sqlite")
  else
    StorageKind.localFS (projectRoot ++ "/" ++ output_dir)

/-- The backend family (object storage / embedded relational / filesystem)
of a constructed strategy, ignoring its path arguments. -/
def backendFamily : StorageKind → String
  | .gcs _ _ => "object-storage"
  | .sqlite _ => "embedded-relational"
  | .localFS _ => "filesystem"

/-! ## step3_delete_duplicated_urls._remove_duplicate_rows_by_url -/

/-- One iteration of the `for row in reversed(rows)` loop: the accumulator
carries (`seen_urls`, `unique_rows`).  `seen_urls` is the Python set,
modelled as a list used only through membership. -/
def dedupStep (acc : List String × List (List String)) (row : List String) :
    List String × List (List String) :=
  if row.length > 1 then
    let url := row.getD 1 ""
    if acc.1.contains url then acc
    else (url :: acc.1, acc.2 ++ [row])
  else acc

/-- Embeds `_remove_duplicate_rows_by_url` from
`step3_delete_duplicated_urls/run.py`: scan the rows from last to first,
keep a row the first time its URL (column 2) is seen, then reverse the
kept rows back into original order. -/
def _remove_duplicate_rows_by_url (rows : List (List String)) : List (List String) :=
  ((rows.reverse.foldl dedupStep ([], [])).2).reverse

/-- URLs (column 2) of the rows having at least two fields. -/
def urlsOfValid (rows : List (List String)) : List String :=
  (rows.filter (fun r => decide (r.length > 1))).map (fun r => r.getD 1 "")

/-- Proof generalisation of the spec-side characterisation: keep a row iff
it has at least two fields and its URL is neither in `seen` nor among the
URLs of later valid rows. -/
def dedupSpecSeen (seen : List String) : List (List String) → List (List String)
  | [] => []
  | r :: rs =>
      (if r.length > 1 &&
          !(seen.contains (r.getD 1 "") || (urlsOfValid rs).contains (r.getD 1 "")) then
        [r] else []) ++ dedupSpecSeen seen rs

/-- Spec-side characterisation of deduplication (from the claim's words):
for each URL keep exactly the occurrence closest to the end of the input,
drop rows with fewer than two fields, preserve the relative order. -/
def dedupSpec (rows : List (List String)) : List (List String) :=
  dedupSpecSeen [] rows

/-! ## step4_scrape_and_save (redirect handling) -/

/-- What the browser shows for a URL when Stage 4 visits it. -/
inductive PageOutcome where
  | redirected
  | removed
  | articleMissing
  | playwrightError
  | success (html : String)

/-- The exceptions that can escape the body of the `try` block in
`Scraper.scrape_html_content`. -/
inductive ScrapeExc where
  | redirectedSkip
  | playwrightErr
deriving DecidableEq

/-- The `try` body of `Scraper.scrape_html_content`: the greeting banner or
the no-content marker raises `RedirectedURLSkipException`; a Playwright
failure raises `Error`; a missing `.article-container` returns `None`;
otherwise the article HTML is returned. -/
def scrapeBody : PageOutcome → Except ScrapeExc (Option String)
  | .redirected => .error .redirectedSkip
  | .removed => .error .redirectedSkip
  | .playwrightError => .error .playwrightErr
  | .articleMissing => .ok none
  | .success h => .ok (some h)

/-- Embeds `Scraper.scrape_html_content`: its own handlers
(`except Error` then `except Exception`) catch every exception raised in
the body — including `RedirectedURLSkipException`, which is an `Exception`
subclass and not a Playwright `Error` — and return `None`. -/
def scrape_html_content (o : PageOutcome) : Option String :=
  match scrapeBody o with
  | .ok r => r
  | .error _ => none

/-- Outcome of one URL inside one pass of `execute`'s scrape loop. -/
inductive UrlResult where
  | saved
  | skippedRedirect
  | failed
deriving DecidableEq

/-- Embeds the per-URL `try` in `execute`: a falsy scrape result
(`None` or the empty string) raises `ValueError`, which the generic
`except Exception` turns into a failure-list entry.  The
`except RedirectedURLSkipException` branch would produce
`.skippedRedirect`, but `scrape_html_content` never lets that exception
escape, so the branch is unreachable. -/
def processUrl (o : PageOutcome) : UrlResult :=
  match scrape_html_content o with
  | some h => if h = "" then .failed else .saved
  | none => .failed

/-- One pass of `execute`'s attempt loop: the URLs that end up on
`failures_in_this_attempt`.  On the first attempt only, URLs already in
the page store are skipped without being treated as failures. -/
def attemptPass (outcome : Nat → String → PageOutcome) (alreadySaved : String → Bool)
    (attempt : Nat) (urls : List (String × String)) : List (String × String) :=
  urls.filter (fun cu =>
    if attempt = 1 && alreadySaved cu.2 then false
    else
      match processUrl (outcome attempt cu.2) with
      | .saved => false
      | .skippedRedirect => false
      | .failed => true)

/-- The list reported as permanently failed after `MAX_ATTEMPTS = 3`
passes of `execute`'s loop. -/
def permanentlyFailed (outcome : Nat → String → PageOutcome)
    (alreadySaved : String → Bool) (urls : List (String × String)) :
    List (String × String) :=
  attemptPass outcome alreadySaved 3
    (attemptPass outcome alreadySaved 2 (attemptPass outcome alreadySaved 1 urls))

/-! ## storage_strategies.SQLiteStorageStrategy -/

/-- One row of the `scraped_pages` table. -/
structure PageRow where
  id : Nat
  category : String
  reference_url : String
  content : String
  scraped_at : Nat
deriving DecidableEq, Repr

/-- Next value of the `INTEGER PRIMARY KEY` column: one more than the
largest existing id (SQLite rowid allocation). -/
def freshId (t : List PageRow) : Nat := (t.map (fun r => r.id)).foldr max 0 + 1

/-- The upsert statement of `SQLiteStorageStrategy.save`:
`INSERT ... ON CONFLICT(reference_url) DO UPDATE SET category, content,
scraped_at`.  `now` stands for `CURRENT_TIMESTAMP`. -/
def upsertPage (t : List PageRow) (url cat content : String) (now : Nat) :
    List PageRow :=
  if t.any (fun r => r.reference_url = url) then
    t.map (fun r =>
      if r.reference_url = url then
        { r with category := cat, content := content, scraped_at := now }
      else r)
  else
    t ++ [{ id := freshId t, category := cat, reference_url := url,
            content := content, scraped_at := now }]

/-- Number of table rows holding a given reference_url. -/
def urlCount (t : List PageRow) (u : String) : Nat :=
  (t.filter (fun r => r.reference_url = u)).length

/-- Arguments of one `save` call on the page store. -/
structure SaveOp where
  url : String
  category : String
  content : String
  now : Nat

/-- Table state after a sequence of successful `save` calls starting from
the freshly created (empty) `scraped_pages` table. -/
def runSaves (ops : List SaveOp) : List PageRow :=
  ops.foldl (fun t op => upsertPage t op.url op.category op.content op.now) []

/-- SQLite connection state: the committed table plus the uncommitted
pending view seen inside the open transaction. -/
structure SQLiteConn where
  committed : List PageRow
  pending : List PageRow
deriving DecidableEq, Repr

/-- `conn.rollback()`: discard uncommitted changes. -/
def connRollback (c : SQLiteConn) : SQLiteConn := { c with pending := c.committed }

/-- `conn.commit()`: make the pending view durable. -/
def connCommit (c : SQLiteConn) : SQLiteConn := { c with committed := c.pending }

/-- `cursor.execute(sql, ...)` for the upsert statement: a single SQLite
statement is atomic, so on success it rewrites the pending view in one
step. -/
def connExecUpsert (c : SQLiteConn) (url cat content : String) (now : Nat) :
    SQLiteConn :=
  { c with pending := upsertPage c.pending url cat content now }

/-- Where a `sqlite3.Error` can be raised inside
`SQLiteStorageStrategy.save`. -/
inductive SaveFailure where
  | execError
  | commitError
deriving DecidableEq

/-- Embeds `SQLiteStorageStrategy.save`: execute the upsert then commit;
on `sqlite3.Error` (at either point, the failing statement itself having
changed nothing) roll back and raise `StorageError`.  The `Except` error
value carries the connection state at the moment the `StorageError`
propagates. -/
def sqliteSave (c : SQLiteConn) (url cat content : String) (now : Nat)
    (failAt : Option SaveFailure) : Except SQLiteConn SQLiteConn :=
  match failAt with
  | some .execError => .error (connRollback c)
  | some .commitError => .error (connRollback (connExecUpsert c url cat content now))
  | none => .ok (connCommit (connExecUpsert c url cat content now))

/-! ## step5_split_into_chunks_and_save.split_into_chunks -/

/-- The `header_context` dict, keys in insertion order h1, h2, h3, h4. -/
structure HeaderContext where
  h1 : String
  h2 : String
  h3 : String
  h4 : String
deriving DecidableEq, Repr

/-- `"".join(header_context.values())`. -/
def joinCtx (c : HeaderContext) : String := c.h1 ++ c.h2 ++ c.h3 ++ c.h4

/-- Loop state of `split_into_chunks`: emitted chunks, the accumulating
`current_chunk_html`, and the header context. -/
structure ChunkState where
  chunks : List String
  cur : String
  ctx : HeaderContext
deriving DecidableEq, Repr

/-- The heading-boundary block at the top of the loop body: on a line
containing `<h1`/`<h2`/`<h3` (tested in that order), emit the accumulated
chunk when it is strictly longer than `min_len`, reset the accumulation to
the appropriate header prefix, and update the context.  There is no `<h4`
branch in the source. -/
def boundaryStep (md : String → String) (minLen : Nat) (st : ChunkState)
    (line : String) : ChunkState :=
  if strContains line "<h1" then
    { chunks := if minLen < st.cur.length then st.chunks ++ [md st.cur] else st.chunks,
      cur := "",
      ctx := { h1 := line, h2 := "", h3 := "", h4 := "" } }
  else if strContains line "<h2" then
    { chunks := if minLen < st.cur.length then st.chunks ++ [md st.cur] else st.chunks,
      cur := st.ctx.h1,
      ctx := { st.ctx with h2 := line, h3 := "", h4 := "" } }
  else if strContains line "<h3" then
    { chunks := if minLen < st.cur.length then st.chunks ++ [md st.cur] else st.chunks,
      cur := st.ctx.h1 ++ st.ctx.h2,
      ctx := { st.ctx with h3 := line, h4 := "" } }
  else st

/-- The tail of the loop body: `current_chunk_html += line`, then if the
accumulation exceeds `max_len`, emit it and restart from the joined header
context plus the triggering line. -/
def appendAndOverflow (md : String → String) (maxLen : Nat) (st : ChunkState)
    (line : String) : ChunkState :=
  let cur := st.cur ++ line
  if maxLen < cur.length then
    { chunks := st.chunks ++ [md cur], cur := joinCtx st.ctx ++ line, ctx := st.ctx }
  else
    { st with cur := cur }

/-- One full iteration of the `for line in html_lines` loop. -/
def splitStep (md : String → String) (maxLen minLen : Nat) (st : ChunkState)
    (line : String) : ChunkState :=
  appendAndOverflow md maxLen (boundaryStep md minLen st line) line

/-- State before the loop: no chunks, empty accumulation, empty context. -/
def initialChunkState : ChunkState :=
  { chunks := [], cur := "", ctx := { h1 := "", h2 := "", h3 := "", h4 := "" } }

/-- `config.CHUNK_MIN_LENGTH`. -/
def CHUNK_MIN_LENGTH : Nat := 300

/-- `config.CHUNK_MAX_LENGTH`. -/
def CHUNK_MAX_LENGTH : Nat := 5000

/-- Embeds `split_into_chunks` from `step5_split_into_chunks_and_save/run.py`;
`md` stands for `md_converter.handle`. -/
def split_into_chunks (html_lines : List String) (md : String → String)
    (maxLen minLen : Nat) : List String :=
  let st := html_lines.foldl (splitStep md maxLen minLen) initialChunkState
  if st.cur = "" then st.chunks else st.chunks ++ [md st.cur]

/-! ## utils.convert_rows_to_in_memory_csv and the csv module

`convert_rows_to_in_memory_csv` writes the rows through `csv.writer` (the
default excel dialect: delimiter `,`, quote character `"`, doubled quotes,
minimal quoting, record terminator CR LF) into an `io.StringIO` and
rewinds it.  The writer and the reader of CPython's `_csv` module are
embedded below over character lists; all characters are treated uniformly
(the CPython NUL-byte special case is out of scope). -/

/-- Characters that force a field to be quoted under minimal quoting:
the delimiter, the quote character, and the characters of the record
terminator. -/
def isCsvSpecial (c : Char) : Bool := c = ',' || c = '"' || c = '\r' || c = '\n'

/-- Double every quote character in a quoted field's body. -/
def escapeQuotes : List Char → List Char
  | [] => []
  | c :: cs => if c = '"' then '"' :: '"' :: escapeQuotes cs else c :: escapeQuotes cs

/-- Whether the writer quotes a field: it contains a special character, or
it is the single empty field of a one-field row (written `""` so it is not
mistaken for an empty record). -/
def fieldQuoted (singleEmpty : Bool) (f : List Char) : Bool :=
  f.any isCsvSpecial || singleEmpty

/-- Encoding of one field, quoted or bare. -/
def encodeField (quoted : Bool) (f : List Char) : List Char :=
  if quoted then '"' :: (escapeQuotes f ++ ['"']) else f

/-- `','.join(fields)`. -/
def joinFieldsComma : List (List Char) → List Char
  | [] => []
  | [f] => f
  | f :: f' :: fs => f ++ ',' :: joinFieldsComma (f' :: fs)

/-- `csv.writer.writerow`: encode each field, join with commas, append the
CR LF record terminator. -/
def encodeRow (r : List (List Char)) : List Char :=
  joinFieldsComma
    (r.map (fun f => encodeField (fieldQuoted (decide (r.length = 1) && f.isEmpty) f) f))
  ++ ['\r', '\n']

/-- `csv.writer.writerows`. -/
def csvEncodeRows (rows : List (List (List Char))) : List Char :=
  (rows.map encodeRow).flatten

/-- Parser states of CPython's `_csv` reader state machine.  `eatCR`
corresponds to EAT_CRNL, which inside one physical line can only consume
carriage returns followed by the terminating line feed. -/
inductive RState where
  | startRecord
  | startField
  | inField
  | inQuoted
  | quoteInQuoted
  | eatCR
deriving DecidableEq

/-- The `_csv` reader run to completion on a character stream: `fld` is
the field buffer, `rec` the fields of the record being assembled, and the
result is the remaining records (in `startField` the buffer is empty by
construction, and end of input saves an empty field as CPython does on the
end-of-line marker).  `none` models the reader error raised on a stray
character after a carriage return in an unquoted field; all other inputs
parse in the default non-strict mode. -/
def parseRun : List Char → RState → List Char → List (List Char) →
    Option (List (List (List Char)))
  | [], .startRecord, _, _ => some []
  | [], .eatCR, _, rec => some [rec]
  | [], _, fld, rec => some [rec ++ [fld]]
  | c :: rest, .startRecord, _, _ =>
      if c = '\n' then (parseRun rest .startRecord [] []).map (fun rs => [] :: rs)
      else if c = '\r' then parseRun rest .eatCR [] []
      else if c = '"' then parseRun rest .inQuoted [] []
      else if c = ',' then parseRun rest .startField [] [[]]
      else parseRun rest .inField [c] []
  | c :: rest, .startField, _, rec =>
      if c = '\n' then
        (parseRun rest .startRecord [] []).map (fun rs => (rec ++ [[]]) :: rs)
      else if c = '\r' then parseRun rest .eatCR [] (rec ++ [[]])
      else if c = '"' then parseRun rest .inQuoted [] rec
      else if c = ',' then parseRun rest .startField [] (rec ++ [[]])
      else parseRun rest .inField [c] rec
  | c :: rest, .inField, fld, rec =>
      if c = '\n' then
        (parseRun rest .startRecord [] []).map (fun rs => (rec ++ [fld]) :: rs)
      else if c = '\r' then parseRun rest .eatCR [] (rec ++ [fld])
      else if c = ',' then parseRun rest .startField [] (rec ++ [fld])
      else parseRun rest .inField (fld ++ [c]) rec
  | c :: rest, .inQuoted, fld, rec =>
      if c = '"' then parseRun rest .quoteInQuoted fld rec
      else parseRun rest .inQuoted (fld ++ [c]) rec
  | c :: rest, .quoteInQuoted, fld, rec =>
      if c = '"' then parseRun rest .inQuoted (fld ++ [c]) rec
      else if c = ',' then parseRun rest .startField [] (rec ++ [fld])
      else if c = '\n' then
        (parseRun rest .startRecord [] []).map (fun rs => (rec ++ [fld]) :: rs)
      else if c = '\r' then parseRun rest .eatCR [] (rec ++ [fld])
      else parseRun rest .inField (fld ++ [c]) rec
  | c :: rest, .eatCR, _, rec =>
      if c = '\r' then parseRun rest .eatCR [] rec
      else if c = '\n' then (parseRun rest .startRecord [] []).map (fun rs => rec :: rs)
      else none

/-- `list(csv.reader(buffer))` on the full text of a buffer. -/
def csvParse (s : String) : Option (List (List String)) :=
  (parseRun s.data .startRecord [] []).map (fun rows => rows.map (fun r => r.map String.mk))

/-- Model of an `io.StringIO`: its text and its read position. -/
structure StringIO where
  content : String
  pos : Nat
deriving DecidableEq, Repr

/-- Embeds `convert_rows_to_in_memory_csv` from `utils.py`: write all rows
through `csv.writer` into a fresh buffer, then `seek(0)`. -/
def convert_rows_to_in_memory_csv (data_rows : List (List String)) : StringIO :=
  { content := String.mk (csvEncodeRows (data_rows.map (fun r => r.map String.data))),
    pos := 0 }

/-! ## step2_crawl_all_urls.Crawler._build_absolute_url_with_en

The pure URL manipulation of Stage 2: `urllib.parse.urljoin` /
`urlparse` / `geturl` are modelled below for the URL shapes a crawl of an
`https` site produces (the `;`-parameters component of `urlparse` is left
inside the path, exactly as `geturl` would re-join it, and every scheme is
treated as participating in relative resolution, as `http`/`https` do). -/

/-- `Crawler.BASE_URL`. -/
def BASE_URL : String := "https://support.google.com"

/-- Split a character list at the first occurrence of `c`; `none` when `c`
does not occur. -/
def splitFirst (c : Char) : List Char → Option (List Char × List Char)
  | [] => none
  | x :: xs =>
      if x = c then some ([], xs)
      else (splitFirst c xs).map (fun p => (x :: p.1, p.2))

/-- Components of a split URL. -/
structure UrlParts where
  scheme : String
  netloc : String
  path : String
  query : String
  fragment : String
deriving DecidableEq, Repr

/-- Characters allowed in a URL scheme after the initial letter. -/
def isSchemeChar (c : Char) : Bool := c.isAlpha || c.isDigit || c = '+' || c = '-' || c = '.'

/-- Scheme detection of `urlparse`: the text before the first colon, when
it is a nonempty valid scheme (lowercased); otherwise no scheme. -/
def splitScheme (s : List Char) : String × List Char :=
  match splitFirst ':' s with
  | none => ("", s)
  | some (pre, post) =>
      match pre with
      | [] => ("", s)
      | c :: cs =>
          if c.isAlpha && (c :: cs).all isSchemeChar then
            (String.mk ((c :: cs).map Char.toLower), post)
          else ("", s)

/-- Models `urllib.parse.urlparse`: scheme, then `//netloc` up to the next
`/`, `?` or `#`, then the fragment after the first `#`, then the query
after the first `?`. -/
def urlparseModel (s : String) : UrlParts :=
  let (scheme, rest) := splitScheme s.data
  let (netloc, rest) :=
    if rest.take 2 = ['/', '/'] then
      ((rest.drop 2).takeWhile (fun c => c ≠ '/' && c ≠ '?' && c ≠ '#'),
       (rest.drop 2).dropWhile (fun c => c ≠ '/' && c ≠ '?' && c ≠ '#'))
    else ([], rest)
  let (rest, fragment) :=
    match splitFirst '#' rest with
    | none => (rest, [])
    | some (a, b) => (a, b)
  let (path, query) :=
    match splitFirst '?' rest with
    | none => (rest, [])
    | some (a, b) => (a, b)
  { scheme := scheme, netloc := String.mk netloc, path := String.mk path,
    query := String.mk query, fragment := String.mk fragment }

/-- Models `SplitResult.geturl` / `urlunparse` re-assembly. -/
def geturlModel (u : UrlParts) : String :=
  let url := u.path
  let url :=
    if u.netloc ≠ "" ∨ url.data.take 2 = ['/', '/'] then
      (if url ≠ "" ∧ url.data.head? ≠ some '/' then "//" ++ u.netloc ++ "/" ++ url
       else "//" ++ u.netloc ++ url)
    else url
  let url := if u.scheme ≠ "" then u.scheme ++ ":" ++ url else url
  let url := if u.query ≠ "" then url ++ "?" ++ u.query else url
  if u.fragment ≠ "" then url ++ "#" ++ u.fragment else url

/-- The middle-segment cleanup of `urljoin`'s relative branch:
`segments[1:-1] = filter(None, segments[1:-1])`. -/
def filterMiddle (segs : List (List Char)) : List (List Char) :=
  match segs with
  | [] => []
  | [x] => [x]
  | x :: xs =>
      match xs.getLast? with
      | none => [x]
      | some last => x :: ((xs.dropLast.filter (fun s => s ≠ [])) ++ [last])

/-- The dot-segment resolution loop of `urljoin` (`..` pops, `.` is
skipped, a trailing dot segment leaves a trailing slash). -/
def resolveSegments (segments : List (List Char)) : List (List Char) :=
  let resolved := segments.foldl
    (fun acc seg =>
      if seg = ['.', '.'] then acc.dropLast
      else if seg = ['.'] then acc
      else acc ++ [seg]) []
  if segments.getLast? = some ['.'] ∨ segments.getLast? = some ['.', '.'] then
    resolved ++ [[]]
  else resolved

/-- Models `urllib.parse.urljoin(base, url)`. -/
def urljoinModel (base url : String) : String :=
  if base = "" then url
  else if url = "" then base
  else
    let b := urlparseModel base
    let u := urlparseModel url
    let uscheme := if u.scheme = "" then b.scheme else u.scheme
    if uscheme ≠ b.scheme then url
    else if u.netloc ≠ "" then geturlModel { u with scheme := uscheme }
    else if u.path = "" then
      geturlModel { scheme := uscheme, netloc := b.netloc, path := b.path,
                    query := if u.query = "" then b.query else u.query,
                    fragment := u.fragment }
    else
      let base_parts := List.splitOn '/' b.path.data
      let base_parts :=
        if base_parts.getLast? ≠ some [] then base_parts.dropLast else base_parts
      let segments :=
        if u.path.data.head? = some '/' then List.splitOn '/' u.path.data
        else filterMiddle (base_parts ++ List.splitOn '/' u.path.data)
      let joined := List.intercalate ['/'] (resolveSegments segments)
      let path := if joined = [] then "/" else String.mk joined
      geturlModel { scheme := uscheme, netloc := b.netloc, path := path,
                    query := u.query, fragment := u.fragment }

/-- `p.split('=')` for one query field, which `dict(...)` accepts only as
an exact key/value pair: any other number of parts raises `ValueError`. -/
def queryFieldPair (p : List Char) : Option (String × String) :=
  match List.splitOn '=' p with
  | [k, v] => some (String.mk k, String.mk v)
  | _ => none

/-- `dict` assignment `d[k] = v`: update the value in place when the key
exists, else append the new pair. -/
def dictInsert (d : List (String × String)) (k v : String) : List (String × String) :=
  match d with
  | [] => [(k, v)]
  | (k', v') :: t => if k' = k then (k', v) :: t else (k', v') :: dictInsert t k v

/-- `dict(pairs)`: insert the pairs in order, later duplicates overwriting
earlier values in place. -/
def dictOfPairs (ps : List (String × String)) : List (String × String) :=
  ps.foldl (fun d p => dictInsert d p.1 p.2) []

/-- `dict(p.split('=') for p in query.split('&')) if query else ` the
empty dict: `none` models the `ValueError` on a field without exactly one
equals sign. -/
def parseQueryDict (q : String) : Option (List (String × String)) :=
  if q = "" then some []
  else
    ((List.splitOn '&' q.data).mapM queryFieldPair).map dictOfPairs

/-- `'&'.join(f"..." for k, v in params_dict.items())`. -/
def joinQueryPairs (ps : List (String × String)) : String :=
  String.intercalate "&" (ps.map (fun p => p.1 ++ "=" ++ p.2))

/-- Embeds `Crawler._build_absolute_url_with_en`: resolve against
`BASE_URL`, parse, rebuild the query dict with `hl` forced to `en`, and
re-assemble; `none` models the `ValueError` escaping on a malformed query
field. -/
def _build_absolute_url_with_en (original_url : String) : Option String :=
  if original_url = "" then some ""
  else
    let full_url := urljoinModel BASE_URL original_url
    let parsed_url := urlparseModel full_url
    match parseQueryDict parsed_url.query with
    | none => none
    | some params_dict =>
        let params_dict := dictInsert params_dict "hl" "en"
        some (geturlModel { parsed_url with query := joinQueryPairs params_dict })

/-! ## step7_create_and_save_embeddings.execute -/

/-- The scrape timestamp of a chunk row, reduced to the two renderings
Stage 7 uses: `strftime("%Y-%m-%d")` and `str(int(timestamp()))`. -/
structure ScrapedAt where
  dateStr : String
  unixTs : Int
deriving DecidableEq, Repr, Inhabited

/-- A row of the `chunks` table as loaded by Stage 7 (`id` is already a
36-character string, so `str(chunk.id)` is the id itself). -/
structure ChunkRow where
  id : String
  content : String
  scraped_at : ScrapedAt
deriving DecidableEq, Repr, Inhabited

/-- One `restricts` facet of a Vector Search datapoint. -/
structure Restrict where
  ns : String
  allow_list : List String
deriving DecidableEq, Repr

/-- The two facets built from a chunk's scrape timestamp. -/
def restrictsOf (t : ScrapedAt) : List Restrict :=
  [{ ns := "scraped_at", allow_list := [t.dateStr] },
   { ns := "scraped_at_timestamp", allow_list := [toString t.unixTs] }]

/-- A Vector Search datapoint (`V` is the feature-vector type). -/
structure Datapoint (V : Type) where
  datapoint_id : String
  feature_vector : V
  restricts : List Restrict
deriving DecidableEq, Repr

/-- The batched embedding loop of Stage 7: `emb` is the embedding service
applied to one text (a successful `get_embeddings` call returns one vector
per input, in order), `ok b` tells whether the service call for batch `b`
succeeds, `B` is `config.EMBEDDING_BATCH_SIZE`, `start`/`bnum` are the
batch's first chunk index and number.  Returns `all_embeddings` and
`successful_chunk_indices`; a failing batch contributes to neither. -/
def embedBatches {V : Type} (emb : String → V) (ok : Nat → Bool) (B : Nat)
    (hB : 0 < B) : List String → Nat → Nat → List V × List Nat
  | [], _, _ => ([], [])
  | t :: ts, start, bnum =>
      let batch := (t :: ts).take B
      let rest := (t :: ts).drop B
      let r := embedBatches emb ok B hB rest (start + B) (bnum + 1)
      if ok bnum then
        (batch.map emb ++ r.1, (List.range batch.length).map (start + ·) ++ r.2)
      else r
termination_by l => l.length
decreasing_by
  simp only [List.length_drop, List.length_cons]
  omega

/-- The datapoint-building loop of Stage 7: zip the successful chunk
indices with the embeddings and look each chunk up by its recorded
index. -/
def buildDatapoints {V : Type} (emb : String → V) (ok : Nat → Bool) (B : Nat)
    (hB : 0 < B) (all_chunks : List ChunkRow) : List (Datapoint V) :=
  let all_texts := all_chunks.map (fun c => c.content)
  let r := embedBatches emb ok B hB all_texts 0 0
  (r.2.zip r.1).map (fun p =>
    let chunk := all_chunks.getD p.1 default
    { datapoint_id := chunk.id, feature_vector := p.2,
      restricts := restrictsOf chunk.scraped_at })

/-- `config.EMBEDDING_BATCH_SIZE`. -/
def EMBEDDING_BATCH_SIZE : Nat := 250

/-! ## Theorems -/

/-! ### C9: storage factory selection -/

/-- C9: the storage factory selects the object-storage backend whenever
the environment is `production` regardless of step context, the embedded
relational (SQLite) backend whenever the environment is anything else and
the step context is `step4`, and the filesystem backend for every other
combination. -/
theorem factory_backend_selection (bucket projectRoot env output_dir step_context : String) :
    (env = "production" →
      backendFamily (get_storage_strategy bucket projectRoot env output_dir step_context)
        = "object-storage")
    ∧ (env ≠ "production" → step_context = "step4" →
      backendFamily (get_storage_strategy bucket projectRoot env output_dir step_context)
        = "embedded-relational")
    ∧ (env ≠ "production" → step_context ≠ "step4" →
      backendFamily (get_storage_strategy bucket projectRoot env output_dir step_context)
        = "filesystem") := by
  refine ⟨fun h => ?_, fun h1 h2 => ?_, fun h1 h2 => ?_⟩
  · simp [get_storage_strategy, backendFamily, h]
  · simp [get_storage_strategy, backendFamily, h1, h2]
  · simp [get_storage_strategy, backendFamily, h1, h2]

/-- Witness for C9: the three selection rules at concrete inputs. -/
theorem factory_backend_selection_witness :
    backendFamily (get_storage_strategy "b" "r" "production" "o" "step4") = "object-storage"
    ∧ backendFamily (get_storage_strategy "b" "r" "development" "o" "step4")
        = "embedded-relational"
    ∧ backendFamily (get_storage_strategy "b" "r" "development" "o" "default")
        = "filesystem" :=
  ⟨(factory_backend_selection "b" "r" "production" "o" "step4").1 rfl,
   (factory_backend_selection "b" "r" "development" "o" "step4").2.1 (by decide) rfl,
   (factory_backend_selection "b" "r" "development" "o" "default").2.2 (by decide) (by decide)⟩

/-! ### C1: Stage 4 redirect skip -/

/-- C1 (code bug): `RedirectedURLSkipException` is caught by
`scrape_html_content`'s own `except Exception` handler and converted to
`None`, so a redirected or removed page is treated exactly like a failure:
it is added to the retry list on every pass and ends up in the
permanently-failed report, and the dedicated skip branch in `execute` is
unreachable — contradicting the claim (and the code's own comments) that
such URLs are silently skipped. -/
theorem redirect_skip_is_swallowed :
    processUrl PageOutcome.redirected = UrlResult.failed
    ∧ processUrl PageOutcome.removed = UrlResult.failed
    ∧ attemptPass (fun _ _ => PageOutcome.redirected) (fun _ => false) 1
        [("cat", "https://support.google.com/youtube/answer/1?hl=en")]
        = [("cat", "https://support.google.com/youtube/answer/1?hl=en")]
    ∧ permanentlyFailed (fun _ _ => PageOutcome.redirected) (fun _ => false)
        [("cat", "https://support.google.com/youtube/answer/1?hl=en")]
        = [("cat", "https://support.google.com/youtube/answer/1?hl=en")]
    ∧ ∀ o : PageOutcome, processUrl o ≠ UrlResult.skippedRedirect := by
  refine ⟨rfl, rfl, rfl, rfl, fun o => ?_⟩
  cases o <;> simp [processUrl, scrape_html_content, scrapeBody]
  split <;> simp

/-! ### C10: SQLite save rollback -/

/-- C10: a `save` failing with a database error raises the storage error
with the committed `scraped_pages` table unchanged and the transaction
rolled back, so an erroring save never inserts a new row or partially
updates an existing one. -/
theorem sqlite_save_error_rolls_back (c : SQLiteConn) (url cat content : String)
    (now : Nat) (f : SaveFailure) :
    ∃ e, sqliteSave c url cat content now (some f) = .error e
      ∧ e.committed = c.committed ∧ e.pending = c.committed := by
  cases f <;> exact ⟨_, rfl, rfl, rfl⟩

/-! ### C6: page-store upsert invariant -/

/-- The conflict-update branch of the upsert leaves every URL's row count
unchanged (the update rewrites rows in place and never touches
`reference_url`). -/
theorem urlCount_update (t : List PageRow) (u v c h : String) (now : Nat) :
    urlCount (t.map (fun r =>
      if r.reference_url = u then
        { r with category := c, content := h, scraped_at := now }
      else r)) v = urlCount t v := by
  induction t with
  | nil => rfl
  | cons r t ih =>
      unfold urlCount at *
      simp only [List.map_cons, List.filter_cons]
      by_cases hr : r.reference_url = u
      · simp only [if_pos hr]
        split <;> simp_all
      · simp only [if_neg hr]
        split <;> simp_all

/-- If no row holds URL `u`, `u`'s row count is zero. -/
theorem urlCount_eq_zero (t : List PageRow) (u : String)
    (h : t.any (fun r => r.reference_url = u) = false) : urlCount t u = 0 := by
  unfold urlCount
  rw [List.length_eq_zero, List.filter_eq_nil_iff]
  have h' : ∀ x ∈ t, ¬x.reference_url = u := by simpa using h
  intro r hr
  simpa using h' r hr

/-- If some row holds URL `u`, `u`'s row count is positive. -/
theorem urlCount_pos (t : List PageRow) (u : String)
    (h : t.any (fun r => r.reference_url = u) = true) : 0 < urlCount t u := by
  obtain ⟨r, hr, hp⟩ := List.any_eq_true.mp h
  exact List.length_pos.mpr (List.ne_nil_of_mem (List.mem_filter.mpr ⟨hr, hp⟩))

/-- Row counts after one upsert: unchanged when the URL already exists,
otherwise one new row for exactly the saved URL. -/
theorem urlCount_upsert (t : List PageRow) (u c h : String) (now : Nat) (v : String) :
    urlCount (upsertPage t u c h now) v
      = if t.any (fun r => r.reference_url = u) then urlCount t v
        else urlCount t v + (if u = v then 1 else 0) := by
  unfold upsertPage
  split
  · exact urlCount_update t u v c h now
  · unfold urlCount
    rw [List.filter_append, List.length_append]
    by_cases huv : u = v <;> simp [List.filter_cons, huv]

/-- C6: the `scraped_pages` table holds at most one row per
`reference_url` after any sequence of saves from the empty table, and
saving the same URL twice leaves exactly one row for it, holding the
second save's category, content and timestamp. -/
theorem page_store_upsert_unique :
    (∀ ops : List SaveOp, ∀ v, urlCount (runSaves ops) v ≤ 1)
    ∧ (∀ (t : List PageRow) (u c1 h1 : String) (n1 : Nat) (c2 h2 : String) (n2 : Nat),
        (∀ v, urlCount t v ≤ 1) →
        urlCount (upsertPage (upsertPage t u c1 h1 n1) u c2 h2 n2) u = 1
        ∧ ∀ r ∈ upsertPage (upsertPage t u c1 h1 n1) u c2 h2 n2,
            r.reference_url = u →
            r.category = c2 ∧ r.content = h2 ∧ r.scraped_at = n2) := by
  have step : ∀ (t : List PageRow) (u c h : String) (now : Nat),
      (∀ v, urlCount t v ≤ 1) → ∀ v, urlCount (upsertPage t u c h now) v ≤ 1 := by
    intro t u c h now ht v
    rw [urlCount_upsert]
    split
    · exact ht v
    · rename_i hany
      by_cases huv : u = v
      · have : urlCount t v = 0 := huv ▸ urlCount_eq_zero t u (by simpa using hany)
        simp [huv, this]
      · simp [huv, ht v]
  constructor
  · intro ops
    induction ops using List.reverseRecOn with
    | nil => intro v; simp [runSaves, urlCount]
    | append_singleton ops op ih =>
        intro v
        unfold runSaves at *
        rw [List.foldl_concat]
        exact step _ op.url op.category op.content op.now ih v
  · intro t u c1 h1 n1 c2 h2 n2 ht
    have h1count : urlCount (upsertPage t u c1 h1 n1) u = 1 := by
      rw [urlCount_upsert]
      split
      · rename_i hany
        exact le_antisymm (ht u) (urlCount_pos t u hany)
      · rename_i hany
        simp [urlCount_eq_zero t u (by simpa using hany)]
    set t1 := upsertPage t u c1 h1 n1 with ht1
    have hany1 : (t1.any fun r => r.reference_url = u) = true := by
      by_contra hfalse
      have := urlCount_eq_zero t1 u (by simpa using hfalse)
      omega
    have houter : upsertPage t1 u c2 h2 n2
        = t1.map (fun r =>
            if r.reference_url = u then
              { r with category := c2, content := h2, scraped_at := n2 }
            else r) := by
      unfold upsertPage
      rw [if_pos hany1]
    constructor
    · rw [urlCount_upsert, if_pos hany1]
      exact h1count
    · intro r hr hru
      rw [houter] at hr
      obtain ⟨r0, _, hr0⟩ := List.mem_map.mp hr
      by_cases h0 : r0.reference_url = u
      · rw [if_pos h0] at hr0
        subst hr0
        exact ⟨rfl, rfl, rfl⟩
      · rw [if_neg h0] at hr0
        subst hr0
        exact absurd hru h0

/-- Witness for C6: the double-save statement applied to the empty table
with two concrete saves of the same URL. -/
theorem page_store_upsert_unique_witness :
    urlCount (upsertPage (upsertPage [] "u" "c1" "x" 1) "u" "c2" "y" 2) "u" = 1 :=
  (page_store_upsert_unique.2 [] "u" "c1" "x" 1 "c2" "y" 2
    (fun v => by simp [urlCount])).1

/-! ### C4: chunk minimum length at heading boundaries -/

/-- C4: at a boundary forced by a new H1/H2/H3 line, the accumulated
chunk is emitted if and only if its raw-HTML length exceeds
`CHUNK_MIN_LENGTH` (sub-threshold accumulations are dropped from the
output), whereas after the last line any non-empty remaining accumulation
is converted and emitted with no minimum-length test. -/
theorem chunk_min_length_rule (md : String → String) :
    (∀ (st : ChunkState) (line : String),
        (strContains line "<h1" || strContains line "<h2" || strContains line "<h3") = true →
        (boundaryStep md CHUNK_MIN_LENGTH st line).chunks
          = if CHUNK_MIN_LENGTH < st.cur.length then st.chunks ++ [md st.cur]
            else st.chunks)
    ∧ (∀ lines : List String,
        (lines.foldl (splitStep md CHUNK_MAX_LENGTH CHUNK_MIN_LENGTH) initialChunkState).cur ≠ "" →
        split_into_chunks lines md CHUNK_MAX_LENGTH CHUNK_MIN_LENGTH
          = (lines.foldl (splitStep md CHUNK_MAX_LENGTH CHUNK_MIN_LENGTH) initialChunkState).chunks
            ++ [md (lines.foldl (splitStep md CHUNK_MAX_LENGTH CHUNK_MIN_LENGTH)
                      initialChunkState).cur]) := by
  constructor
  · intro st line h
    unfold boundaryStep
    rcases Bool.or_eq_true_iff.mp h with h' | h3
    · rcases Bool.or_eq_true_iff.mp h' with h1 | h2
      · simp [h1]
      · by_cases h1 : strContains line "<h1" = true <;> simp [h1, h2]
    · by_cases h1 : strContains line "<h1" = true
      · simp [h1]
      · by_cases h2 : strContains line "<h2" = true <;> simp [h1, h2, h3]
  · intro lines h
    unfold split_into_chunks
    simp [h]

/-- Witness for C4: a 301-character accumulation is emitted at an `<h1>`
boundary, and a 2-character trailing accumulation is emitted by the final
flush. -/
theorem chunk_min_length_rule_witness :
    (boundaryStep (fun s => s) CHUNK_MIN_LENGTH
        { chunks := [], cur := String.mk (List.replicate 301 'a'),
          ctx := { h1 := "", h2 := "", h3 := "", h4 := "" } } "<h1>").chunks
      = (if CHUNK_MIN_LENGTH < (String.mk (List.replicate 301 'a')).length then
          [] ++ [String.mk (List.replicate 301 'a')] else [])
    ∧ split_into_chunks ["ab"] (fun s => s) CHUNK_MAX_LENGTH CHUNK_MIN_LENGTH
        = (["ab"].foldl (splitStep (fun s => s) CHUNK_MAX_LENGTH CHUNK_MIN_LENGTH)
             initialChunkState).chunks
          ++ [(fun s : String => s)
                ((["ab"].foldl (splitStep (fun s => s) CHUNK_MAX_LENGTH CHUNK_MIN_LENGTH)
                   initialChunkState).cur)] :=
  ⟨(chunk_min_length_rule (fun s => s)).1
      { chunks := [], cur := String.mk (List.replicate 301 'a'),
        ctx := { h1 := "", h2 := "", h3 := "", h4 := "" } } "<h1>" (by decide),
   (chunk_min_length_rule (fun s => s)).2 ["ab"] (by decide)⟩

/-! ### C3: rolling header context and maximum-length overflow -/

/-- C3 counterexample: the claim says the rolling header context holds the
most recent H4 heading line, but the loop has no `<h4` branch — after
processing the line `<h4>x</h4>` the context's H4 slot is still empty,
not that line. -/
theorem chunk_h4_never_tracked :
    (splitStep (fun s => s) CHUNK_MAX_LENGTH CHUNK_MIN_LENGTH initialChunkState
        "<h4>x</h4>").ctx.h4 ≠ "<h4>x</h4>" := by
  decide

/-- C3 (amended): the walker keeps the most recent H1/H2/H3 heading lines
in the rolling context (a new heading clears the levels below it and
keeps the levels above it, and resets the accumulation to the context
prefix above it); the H4 slot is never populated and stays empty over any
run; and whenever the accumulation exceeds `CHUNK_MAX_LENGTH` after a
line is appended, the chunk is immediately closed and converted and the
next accumulation starts with the joined current header context followed
by the overflow-triggering line. -/
theorem chunk_header_context_rule (md : String → String) :
    (∀ (st : ChunkState) (line : String), strContains line "<h1" = true →
        (boundaryStep md CHUNK_MIN_LENGTH st line).ctx
            = { h1 := line, h2 := "", h3 := "", h4 := "" }
          ∧ (boundaryStep md CHUNK_MIN_LENGTH st line).cur = "")
    ∧ (∀ (st : ChunkState) (line : String),
        strContains line "<h1" = false → strContains line "<h2" = true →
        (boundaryStep md CHUNK_MIN_LENGTH st line).ctx
            = { h1 := st.ctx.h1, h2 := line, h3 := "", h4 := "" }
          ∧ (boundaryStep md CHUNK_MIN_LENGTH st line).cur = st.ctx.h1)
    ∧ (∀ (st : ChunkState) (line : String),
        strContains line "<h1" = false → strContains line "<h2" = false →
        strContains line "<h3" = true →
        (boundaryStep md CHUNK_MIN_LENGTH st line).ctx
            = { h1 := st.ctx.h1, h2 := st.ctx.h2, h3 := line, h4 := "" }
          ∧ (boundaryStep md CHUNK_MIN_LENGTH st line).cur = st.ctx.h1 ++ st.ctx.h2)
    ∧ (∀ (st : ChunkState) (line : String),
        strContains line "<h1" = false → strContains line "<h2" = false →
        strContains line "<h3" = false →
        boundaryStep md CHUNK_MIN_LENGTH st line = st)
    ∧ (∀ lines : List String,
        ((lines.foldl (splitStep md CHUNK_MAX_LENGTH CHUNK_MIN_LENGTH)
            initialChunkState).ctx).h4 = "")
    ∧ (∀ (st : ChunkState) (line : String),
        CHUNK_MAX_LENGTH < (st.cur ++ line).length →
        appendAndOverflow md CHUNK_MAX_LENGTH st line
          = { chunks := st.chunks ++ [md (st.cur ++ line)],
              cur := joinCtx st.ctx ++ line, ctx := st.ctx })
    ∧ (∀ (maxLen minLen : Nat) (st : ChunkState) (line : String),
        splitStep md maxLen minLen st line
          = appendAndOverflow md maxLen (boundaryStep md minLen st line) line) := by
  refine ⟨fun st line h1 => ?_, fun st line h1 h2 => ?_, fun st line h1 h2 h3 => ?_,
          fun st line h1 h2 h3 => ?_, fun lines => ?_, fun st line h => ?_,
          fun maxLen minLen st line => rfl⟩
  · unfold boundaryStep
    simp [h1]
  · unfold boundaryStep
    simp [h1, h2]
  · unfold boundaryStep
    simp [h1, h2, h3]
  · unfold boundaryStep
    simp [h1, h2, h3]
  · have step : ∀ (st : ChunkState) (line : String), st.ctx.h4 = "" →
        ((splitStep md CHUNK_MAX_LENGTH CHUNK_MIN_LENGTH st line).ctx).h4 = "" := by
      intro st line hst
      have hctx : (splitStep md CHUNK_MAX_LENGTH CHUNK_MIN_LENGTH st line).ctx
          = (boundaryStep md CHUNK_MIN_LENGTH st line).ctx := by
        unfold splitStep appendAndOverflow
        dsimp only
        split <;> rfl
      rw [hctx]
      unfold boundaryStep
      by_cases h1 : strContains line "<h1" = true
      · simp [h1]
      · by_cases h2 : strContains line "<h2" = true
        · simp [h1, h2]
        · by_cases h3 : strContains line "<h3" = true
          · simp [h1, h2, h3]
          · simp [h1, h2, h3, hst]
    have gen : ∀ (lines : List String) (st : ChunkState), st.ctx.h4 = "" →
        ((lines.foldl (splitStep md CHUNK_MAX_LENGTH CHUNK_MIN_LENGTH) st).ctx).h4 = "" := by
      intro lines
      induction lines with
      | nil => intro st hst; simpa using hst
      | cons l ls ih =>
          intro st hst
          simpa using ih _ (step st l hst)
    exact gen _ initialChunkState rfl
  · simp only [appendAndOverflow]
    rw [if_pos h]

/-- Witness for the amended C3: each boundary rule at a concrete line,
and an overflow step on a 5002-character accumulation. -/
theorem chunk_header_context_rule_witness :
    ((boundaryStep (fun s => s) CHUNK_MIN_LENGTH initialChunkState "<h1>a").ctx
        = { h1 := "<h1>a", h2 := "", h3 := "", h4 := "" }
      ∧ (boundaryStep (fun s => s) CHUNK_MIN_LENGTH initialChunkState "<h1>a").cur = "")
    ∧ ((boundaryStep (fun s => s) CHUNK_MIN_LENGTH initialChunkState "<h2>b").ctx
        = { h1 := initialChunkState.ctx.h1, h2 := "<h2>b", h3 := "", h4 := "" }
      ∧ (boundaryStep (fun s => s) CHUNK_MIN_LENGTH initialChunkState "<h2>b").cur
          = initialChunkState.ctx.h1)
    ∧ ((boundaryStep (fun s => s) CHUNK_MIN_LENGTH initialChunkState "<h3>c").ctx
        = { h1 := initialChunkState.ctx.h1, h2 := initialChunkState.ctx.h2,
            h3 := "<h3>c", h4 := "" }
      ∧ (boundaryStep (fun s => s) CHUNK_MIN_LENGTH initialChunkState "<h3>c").cur
          = initialChunkState.ctx.h1 ++ initialChunkState.ctx.h2)
    ∧ boundaryStep (fun s => s) CHUNK_MIN_LENGTH initialChunkState "plain text"
        = initialChunkState
    ∧ appendAndOverflow (fun s => s) CHUNK_MAX_LENGTH
        { chunks := [], cur := String.mk (List.replicate 5001 'a'),
          ctx := initialChunkState.ctx } "x"
        = { chunks := [] ++ [String.mk (List.replicate 5001 'a') ++ "x"],
            cur := joinCtx initialChunkState.ctx ++ "x",
            ctx := initialChunkState.ctx } :=
  ⟨(chunk_header_context_rule (fun s => s)).1 initialChunkState "<h1>a" (by decide),
   (chunk_header_context_rule (fun s => s)).2.1 initialChunkState "<h2>b"
     (by decide) (by decide),
   (chunk_header_context_rule (fun s => s)).2.2.1 initialChunkState "<h3>c"
     (by decide) (by decide) (by decide),
   (chunk_header_context_rule (fun s => s)).2.2.2.1 initialChunkState "plain text"
     (by decide) (by decide) (by decide),
   (chunk_header_context_rule (fun s => s)).2.2.2.2.2.1
     { chunks := [], cur := String.mk (List.replicate 5001 'a'),
       ctx := initialChunkState.ctx } "x"
     (by
       rw [String.length_append]
       rw [show (String.mk (List.replicate 5001 'a')).length = 5001 from by
         show (List.replicate 5001 'a').length = 5001
         rw [List.length_replicate]]
       show CHUNK_MAX_LENGTH < 5001 + "x".length
       decide)⟩

/-! ### C2: Stage 3 deduplication -/

/-- `urlsOfValid` on a cons. -/
theorem urlsOfValid_cons (r : List String) (rs : List (List String)) :
    urlsOfValid (r :: rs)
      = if r.length > 1 then r.getD 1 "" :: urlsOfValid rs else urlsOfValid rs := by
  unfold urlsOfValid
  by_cases h : r.length > 1 <;> simp [List.filter_cons, h]

/-- Equation of `dedupSpecSeen` on a cons cell. -/
theorem dedupSpecSeen_cons (seen : List String) (r : List String)
    (rs : List (List String)) :
    dedupSpecSeen seen (r :: rs)
      = (if r.length > 1 &&
            !(seen.contains (r.getD 1 "") || (urlsOfValid rs).contains (r.getD 1 "")) then
          [r] else []) ++ dedupSpecSeen seen rs := rfl

/-- The reverse scan of `_remove_duplicate_rows_by_url`, run from an
arbitrary accumulator, keeps exactly the rows `dedupSpecSeen` describes
(in reverse order), and its seen-set afterwards holds exactly the starting
URLs plus the URLs of the processed valid rows. -/
theorem dedup_foldl (l : List (List String)) :
    ∀ (seen : List String) (uniq : List (List String)),
      ∃ seenOut : List String,
        l.reverse.foldl dedupStep (seen, uniq)
          = (seenOut, uniq ++ (dedupSpecSeen seen l).reverse)
        ∧ ∀ u : String,
            seenOut.contains u = (seen.contains u || (urlsOfValid l).contains u) := by
  induction l with
  | nil =>
      intro seen uniq
      exact ⟨seen, by simp [dedupSpecSeen], fun u => by simp [urlsOfValid]⟩
  | cons r rs ih =>
      intro seen uniq
      obtain ⟨s', hfold, hmem⟩ := ih seen uniq
      rw [List.reverse_cons, List.foldl_concat, hfold]
      by_cases hlen : r.length > 1
      · have hurls : urlsOfValid (r :: rs) = r.getD 1 "" :: urlsOfValid rs := by
          rw [urlsOfValid_cons, if_pos hlen]
        by_cases hc :
            (seen.contains (r.getD 1 "") || (urlsOfValid rs).contains (r.getD 1 "")) = true
        · refine ⟨s', ?_, ?_⟩
          · rw [dedupSpecSeen_cons, if_neg (by rw [hc]; simp), List.nil_append]
            unfold dedupStep
            rw [if_pos hlen, if_pos (by rw [hmem (r.getD 1 "")]; exact hc)]
          · intro u
            rw [hmem u, hurls]
            by_cases hu : u = r.getD 1 ""
            · subst hu
              rw [hc]
              simp [List.contains_cons]
            · simp only [List.contains_cons,
                show (u == r.getD 1 "") = false from beq_eq_false_iff_ne.mpr hu,
                Bool.false_or]
        · have hc' :
              (seen.contains (r.getD 1 "") || (urlsOfValid rs).contains (r.getD 1 ""))
                = false := by
            simpa using hc
          refine ⟨r.getD 1 "" :: s', ?_, ?_⟩
          · rw [dedupSpecSeen_cons,
              if_pos (by
                rw [hc']
                simp only [Bool.not_false, Bool.and_true]
                exact decide_eq_true hlen),
              List.singleton_append]
            unfold dedupStep
            rw [if_pos hlen, if_neg (by rw [hmem (r.getD 1 "")]; exact hc)]
            simp
          · intro u
            simp only [List.contains_cons, hmem u, hurls]
            cases hb : (u == r.getD 1 "") <;>
              cases hs : seen.contains u <;>
                cases hr : (urlsOfValid rs).contains u <;> simp [hb, hs, hr]
      · have hurls : urlsOfValid (r :: rs) = urlsOfValid rs := by
          rw [urlsOfValid_cons, if_neg hlen]
        refine ⟨s', ?_, fun u => by rw [hurls, hmem u]⟩
        rw [dedupSpecSeen_cons, if_neg (by simp [hlen]), List.nil_append]
        unfold dedupStep
        rw [if_neg hlen]

/-- C2: Stage 3 deduplication keeps, for each URL in column 2, exactly the
occurrence closest to the end of the input among rows with at least two
fields, drops rows with fewer than two fields, and preserves the original
relative order; on the spec's example it keeps the later of the two `u1`
rows. -/
theorem dedup_keeps_last_occurrence :
    (∀ rows : List (List String), _remove_duplicate_rows_by_url rows = dedupSpec rows)
    ∧ _remove_duplicate_rows_by_url [["A", "u1"], ["B", "u2"], ["C", "u1"]]
        = [["B", "u2"], ["C", "u1"]] := by
  have main : ∀ rows : List (List String),
      _remove_duplicate_rows_by_url rows = dedupSpec rows := by
    intro rows
    obtain ⟨s', hfold, -⟩ := dedup_foldl rows [] []
    unfold _remove_duplicate_rows_by_url dedupSpec
    rw [hfold]
    simp
  exact ⟨main, by rw [main]; decide⟩

/-! ### C7: embedding/datapoint alignment under skipped batches -/

/-- Reading a list through `getD` at each index of `List.range` is the
list itself. -/
theorem map_range_getD {α β : Type} (l : List α) (d : α) (f : α → β) :
    (List.range l.length).map (fun i => f (l.getD i d)) = l.map f := by
  induction l with
  | nil => simp
  | cons x xs ih =>
      rw [List.length_cons, List.range_succ_eq_map, List.map_cons, List.map_map,
        List.map_cons]
      refine congrArg₂ (· :: ·) (by simp) ?_
      rw [show ((fun i => f ((x :: xs).getD i d)) ∘ Nat.succ) = fun i => f (xs.getD i d) from
        funext fun i => by simp]
      exact ih

/-- `getD` through `take` below the cut. -/
theorem getD_take {α : Type} (l : List α) (n i : Nat) (d : α) (h : i < n) :
    (l.take n).getD i d = l.getD i d := by
  simp [List.getD_eq_getElem?_getD, List.getElem?_take, h]

/-- `getD` through `drop`. -/
theorem getD_drop {α : Type} (l : List α) (n j : Nat) (d : α) :
    (l.drop n).getD j d = l.getD (n + j) d := by
  simp [List.getD_eq_getElem?_getD, List.getElem?_drop]

/-- Closed form of the batched embedding loop: the recorded successful
chunk indices are exactly the positions whose batch number the oracle
accepts, and the embeddings list is those same positions' texts embedded,
in the same order. -/
theorem embedBatches_eq {V : Type} (emb : String → V) (ok : Nat → Bool) (B : Nat)
    (hB : 0 < B) (texts : List String) (start bnum : Nat) :
    embedBatches emb ok B hB texts start bnum
      = (((List.range texts.length).filter (fun i => ok (bnum + i / B))).map
           (fun i => emb (texts.getD i "")),
         ((List.range texts.length).filter (fun i => ok (bnum + i / B))).map
           (fun i => start + i)) := by
  induction texts, start, bnum using embedBatches.induct emb ok B hB with
  | case1 start bnum => simp [embedBatches]
  | case2 t ts start bnum rest hok ih =>
      rw [embedBatches]
      simp only [hok, if_true]
      rw [ih]
      unfold rest
      simp only [List.length_drop, List.length_cons]
      rcases le_or_lt B (ts.length + 1) with hBle | hBgt
      · have hbatchlen : (List.take B (t :: ts)).length = B := by
          simp only [List.length_take, List.length_cons]
          omega
        have hF : List.filter (fun i => ok (bnum + i / B)) (List.range (ts.length + 1))
            = List.range B
              ++ (List.filter (fun j => ok (bnum + 1 + j / B))
                   (List.range (ts.length + 1 - B))).map (fun j => B + j) := by
          conv_lhs => rw [show ts.length + 1 = B + (ts.length + 1 - B) by omega]
          rw [List.range_add, List.filter_append, List.filter_map]
          congr 1
          · refine List.filter_eq_self.mpr ?_
            intro i hi
            have hi' : i / B = 0 := Nat.div_eq_of_lt (List.mem_range.mp hi)
            simp [hi', hok]
          · refine congrArg _ ?_
            refine List.filter_congr ?_
            intro j hj
            simp only [Function.comp_apply]
            rw [Nat.add_div_left j hB]
            exact congrArg ok (by omega)
        rw [hF]
        simp only [Prod.mk.injEq, List.map_append, List.map_map]
        constructor
        · congr 1
          · have hmr := map_range_getD (List.take B (t :: ts)) "" emb
            rw [hbatchlen] at hmr
            rw [← hmr]
            refine List.map_congr_left ?_
            intro i hi
            rw [getD_take _ _ _ _ (List.mem_range.mp hi)]
          · refine List.map_congr_left ?_
            intro j hj
            simp only [Function.comp_apply]
            rw [getD_drop]
        · congr 1
          · rw [hbatchlen]
          · refine List.map_congr_left ?_
            intro j hj
            simp only [Function.comp_apply]
            omega
      · have h0 : ts.length + 1 - B = 0 := by omega
        have hbatch : List.take B (t :: ts) = t :: ts :=
          List.take_of_length_le (by simp only [List.length_cons]; omega)
        have hfilter : List.filter (fun i => ok (bnum + i / B)) (List.range (ts.length + 1))
            = List.range (ts.length + 1) := by
          refine List.filter_eq_self.mpr ?_
          intro i hi
          have hi' : i / B = 0 := Nat.div_eq_of_lt (by
            have := List.mem_range.mp hi
            omega)
          simp [hi', hok]
        rw [h0, hbatch, hfilter]
        simp only [List.range_zero, List.filter_nil, List.map_nil, List.append_nil,
          Prod.mk.injEq]
        constructor
        · rw [← map_range_getD (t :: ts) "" emb]
          simp only [List.length_cons]
        · simp only [List.length_cons]
  | case3 t ts start bnum rest hok ih =>
      rw [embedBatches]
      simp only [hok, Bool.false_eq_true, if_false]
      rw [ih]
      unfold rest
      simp only [List.length_drop, List.length_cons]
      rcases le_or_lt B (ts.length + 1) with hBle | hBgt
      · have hF : List.filter (fun i => ok (bnum + i / B)) (List.range (ts.length + 1))
            = (List.filter (fun j => ok (bnum + 1 + j / B))
                 (List.range (ts.length + 1 - B))).map (fun j => B + j) := by
          conv_lhs => rw [show ts.length + 1 = B + (ts.length + 1 - B) by omega]
          rw [List.range_add, List.filter_append, List.filter_map]
          rw [show List.filter (fun i => ok (bnum + i / B)) (List.range B) = [] from ?_]
          · rw [List.nil_append]
            refine congrArg _ ?_
            refine List.filter_congr ?_
            intro j hj
            simp only [Function.comp_apply]
            rw [Nat.add_div_left j hB]
            exact congrArg ok (by omega)
          · refine List.filter_eq_nil_iff.mpr ?_
            intro i hi
            have hi' : i / B = 0 := Nat.div_eq_of_lt (List.mem_range.mp hi)
            simp [hi', hok]
        rw [hF]
        simp only [Prod.mk.injEq, List.map_map]
        constructor
        · refine List.map_congr_left ?_
          intro j hj
          simp only [Function.comp_apply]
          rw [getD_drop]
        · refine List.map_congr_left ?_
          intro j hj
          simp only [Function.comp_apply]
          omega
      · have h0 : ts.length + 1 - B = 0 := by omega
        have hfilter : List.filter (fun i => ok (bnum + i / B)) (List.range (ts.length + 1))
            = [] := by
          refine List.filter_eq_nil_iff.mpr ?_
          intro i hi
          have hi' : i / B = 0 := Nat.div_eq_of_lt (by
            have := List.mem_range.mp hi
            omega)
          simp [hi', hok]
        rw [h0, hfilter]
        simp

/-- C7: Stage 7 builds datapoints only for chunks whose batch embedded
successfully, pairing each chunk's string id with the vector of that same
chunk's content (skipped batches never shift the id-to-vector alignment)
and attaching the two restricts facets derived from that chunk's
scrape timestamp.  `B` is the batch size (250 in the code); `ok b` is
whether the embedding call for batch `b` succeeds. -/
theorem embedding_datapoint_alignment {V : Type} (emb : String → V) (ok : Nat → Bool)
    (B : Nat) (hB : 0 < B) (all_chunks : List ChunkRow) :
    buildDatapoints emb ok B hB all_chunks
      = ((List.range all_chunks.length).filter (fun i => ok (i / B))).map
          (fun i =>
            { datapoint_id := (all_chunks.getD i default).id,
              feature_vector := emb ((all_chunks.getD i default).content),
              restricts := restrictsOf ((all_chunks.getD i default).scraped_at) }) := by
  unfold buildDatapoints
  dsimp only
  rw [embedBatches_eq]
  simp only [List.length_map, Nat.zero_add]
  rw [List.zip_map']
  rw [List.map_map]
  refine List.map_congr_left ?_
  intro i hi
  have hlen : i < all_chunks.length :=
    List.mem_range.mp (List.mem_of_mem_filter hi)
  have hcontent : (all_chunks.map (fun c => c.content)).getD i ""
      = (all_chunks.getD i default).content := by
    rw [List.getD_eq_getElem?_getD, List.getD_eq_getElem?_getD, List.getElem?_map,
      List.getElem?_eq_getElem hlen]
    rfl
  simp only [Function.comp_apply, hcontent]

/-- Witness for C7: three chunks with batch size 1, the middle batch
failing — datapoints are built for the first and third chunks only, each
with the vector of its own content. -/
theorem embedding_datapoint_alignment_witness :
    (0 : Nat) < 1
    ∧ (buildDatapoints (fun s => s.length) (fun b => b != 1) 1 Nat.one_pos
        [{ id := "i0", content := "a",
           scraped_at := { dateStr := "2025-01-01", unixTs := 10 } },
         { id := "i1", content := "bb",
           scraped_at := { dateStr := "2025-01-02", unixTs := 20 } },
         { id := "i2", content := "ccc",
           scraped_at := { dateStr := "2025-01-03", unixTs := 30 } }]).map
          (fun d => (d.datapoint_id, d.feature_vector))
        = [("i0", 1), ("i2", 3)] := by
  refine ⟨by decide, ?_⟩
  rw [embedding_datapoint_alignment]
  decide

/-! ### C5: Stage 2 absolute-URL builder -/

/-- Looking up the assigned key after a dict assignment yields the
assigned value. -/
theorem lookup_dictInsert_self (d : List (String × String)) (k v : String) :
    (dictInsert d k v).lookup k = some v := by
  induction d with
  | nil => simp [dictInsert, List.lookup]
  | cons p t ih =>
      obtain ⟨k', v'⟩ := p
      by_cases h : k' = k
      · subst h
        simp [dictInsert, List.lookup]
      · simp only [dictInsert, if_neg h, List.lookup]
        rw [show (k == k') = false from beq_eq_false_iff_ne.mpr (Ne.symm h)]
        exact ih

/-- A dict assignment leaves every other key's value unchanged. -/
theorem lookup_dictInsert_ne (d : List (String × String)) (k v k' : String)
    (h : k' ≠ k) : (dictInsert d k v).lookup k' = d.lookup k' := by
  induction d with
  | nil => simp [dictInsert, List.lookup, beq_eq_false_iff_ne.mpr h]
  | cons p t ih =>
      obtain ⟨k0, v0⟩ := p
      by_cases h0 : k0 = k
      · subst h0
        simp only [dictInsert, if_pos rfl, List.lookup]
        rw [show (k' == k0) = false from beq_eq_false_iff_ne.mpr h]
      · simp only [dictInsert, if_neg h0, List.lookup]
        cases hb : (k' == k0)
        · exact ih
        · rfl

/-- C5 counterexample: the claim says the builder returns the resolved
URL with `hl=en` for every extracted href, but an href whose query has a
field without an equals sign (here `?flag`) makes
`dict(p.split('=') for p in query.split('&'))` raise `ValueError`, so the
builder returns no URL at all. -/
theorem url_builder_counterexample :
    _build_absolute_url_with_en "/youtube/answer/1?flag" = none := by rfl

/-- C5 (amended): for every non-empty href whose resolved query parses as
key/value fields (each field containing exactly one equals sign; on a
repeated key the last value wins, as in `dict`), the builder returns the
href resolved against `BASE_URL` with its query rebuilt so that `hl` maps
to `en` and every other parsed parameter keeps its value; an empty href
returns the empty string unchanged. -/
theorem url_builder_forces_hl_en (href : String) (hne : href ≠ "")
    (ps : List (String × String))
    (hq : parseQueryDict (urlparseModel (urljoinModel BASE_URL href)).query = some ps) :
    _build_absolute_url_with_en href
      = some (geturlModel
          { urlparseModel (urljoinModel BASE_URL href) with
            query := joinQueryPairs (dictInsert ps "hl" "en") })
    ∧ (dictInsert ps "hl" "en").lookup "hl" = some "en"
    ∧ ∀ k : String, k ≠ "hl" →
        (dictInsert ps "hl" "en").lookup k = ps.lookup k := by
  refine ⟨?_, lookup_dictInsert_self ps "hl" "en",
    fun k hk => lookup_dictInsert_ne ps "hl" "en" k hk⟩
  unfold _build_absolute_url_with_en
  rw [if_neg hne]
  dsimp only
  rw [hq]

/-- Witness for C5 (amended): a concrete href with an existing `hl=ja`
and one other parameter. -/
theorem url_builder_forces_hl_en_witness :
    _build_absolute_url_with_en "/youtube/answer/12345?hl=ja&x=1"
      = some "https://support.google.com/youtube/answer/12345?hl=en&x=1"
    ∧ (dictInsert [("hl", "ja"), ("x", "1")] "hl" "en").lookup "x" = some "1" := by
  have h := url_builder_forces_hl_en "/youtube/answer/12345?hl=ja&x=1" (by decide)
    [("hl", "ja"), ("x", "1")] (by rfl)
  exact ⟨h.1.trans (by rfl), h.2.2 "x" (by decide)⟩

/-! ### C8: CSV round trip

Small-step equations of the reader, then the printer/parser inverse
lemmas: an encoded field followed by a delimiter, one encoded record, and
finally the full writer output. -/


theorem parseRun_cons_startRecord (c : Char) (rest : List Char) (fld : List Char)
    (rec : List (List Char)) :
    parseRun (c :: rest) .startRecord fld rec
      = (if c = '\n' then (parseRun rest .startRecord [] []).map (fun rs => [] :: rs)
         else if c = '\r' then parseRun rest .eatCR [] []
         else if c = '"' then parseRun rest .inQuoted [] []
         else if c = ',' then parseRun rest .startField [] [[]]
         else parseRun rest .inField [c] []) := rfl

theorem parseRun_cons_startField (c : Char) (rest : List Char) (fld : List Char)
    (rec : List (List Char)) :
    parseRun (c :: rest) .startField fld rec
      = (if c = '\n' then
          (parseRun rest .startRecord [] []).map (fun rs => (rec ++ [[]]) :: rs)
         else if c = '\r' then parseRun rest .eatCR [] (rec ++ [[]])
         else if c = '"' then parseRun rest .inQuoted [] rec
         else if c = ',' then parseRun rest .startField [] (rec ++ [[]])
         else parseRun rest .inField [c] rec) := rfl

theorem parseRun_cons_inField (c : Char) (rest : List Char) (fld : List Char)
    (rec : List (List Char)) :
    parseRun (c :: rest) .inField fld rec
      = (if c = '\n' then
          (parseRun rest .startRecord [] []).map (fun rs => (rec ++ [fld]) :: rs)
         else if c = '\r' then parseRun rest .eatCR [] (rec ++ [fld])
         else if c = ',' then parseRun rest .startField [] (rec ++ [fld])
         else parseRun rest .inField (fld ++ [c]) rec) := rfl

theorem parseRun_cons_inQuoted (c : Char) (rest : List Char) (fld : List Char)
    (rec : List (List Char)) :
    parseRun (c :: rest) .inQuoted fld rec
      = (if c = '"' then parseRun rest .quoteInQuoted fld rec
         else parseRun rest .inQuoted (fld ++ [c]) rec) := rfl

theorem parseRun_cons_quoteInQuoted (c : Char) (rest : List Char) (fld : List Char)
    (rec : List (List Char)) :
    parseRun (c :: rest) .quoteInQuoted fld rec
      = (if c = '"' then parseRun rest .inQuoted (fld ++ [c]) rec
         else if c = ',' then parseRun rest .startField [] (rec ++ [fld])
         else if c = '\n' then
          (parseRun rest .startRecord [] []).map (fun rs => (rec ++ [fld]) :: rs)
         else if c = '\r' then parseRun rest .eatCR [] (rec ++ [fld])
         else parseRun rest .inField (fld ++ [c]) rec) := rfl

theorem parseRun_cons_eatCR (c : Char) (rest : List Char) (fld : List Char)
    (rec : List (List Char)) :
    parseRun (c :: rest) .eatCR fld rec
      = (if c = '\r' then parseRun rest .eatCR [] rec
         else if c = '\n' then
          (parseRun rest .startRecord [] []).map (fun rs => rec :: rs)
         else none) := rfl

theorem not_special (c : Char) (h : isCsvSpecial c = false) :
    c ≠ ',' ∧ c ≠ '"' ∧ c ≠ '\r' ∧ c ≠ '\n' := by
  have h' := h
  simp [isCsvSpecial] at h'
  tauto

theorem parse_unquoted_body (f : List Char) (h : ∀ c ∈ f, isCsvSpecial c = false) :
    ∀ (rest fld : List Char) (rec : List (List Char)),
      parseRun (f ++ rest) .inField fld rec = parseRun rest .inField (fld ++ f) rec := by
  induction f with
  | nil => intro rest fld rec; simp
  | cons c f' ih =>
      intro rest fld rec
      obtain ⟨h1, h2, h3, h4⟩ := not_special c (h c (by simp))
      rw [List.cons_append, parseRun_cons_inField, if_neg h4, if_neg h3, if_neg h1]
      rw [ih (fun d hd => h d (by simp [hd])) rest (fld ++ [c]) rec]
      simp

theorem parse_quoted_body (f : List Char) :
    ∀ (rest fld : List Char) (rec : List (List Char)),
      parseRun (escapeQuotes f ++ rest) .inQuoted fld rec
        = parseRun rest .inQuoted (fld ++ f) rec := by
  induction f with
  | nil => intro rest fld rec; simp [escapeQuotes]
  | cons c f' ih =>
      intro rest fld rec
      by_cases hc : c = '"'
      · subst hc
        rw [show escapeQuotes ('"' :: f') = '"' :: '"' :: escapeQuotes f' from by
          simp [escapeQuotes]]
        rw [List.cons_append, List.cons_append, parseRun_cons_inQuoted, if_pos rfl,
          parseRun_cons_quoteInQuoted, if_pos rfl]
        rw [ih rest (fld ++ ['"']) rec]
        simp
      · rw [show escapeQuotes (c :: f') = c :: escapeQuotes f' from by
          simp [escapeQuotes, hc]]
        rw [List.cons_append, parseRun_cons_inQuoted, if_neg hc]
        rw [ih rest (fld ++ [c]) rec]
        simp

theorem parse_field_comma (q : Bool) (f : List Char)
    (hq : q = false → ∀ c ∈ f, isCsvSpecial c = false) (tail : List Char)
    (rec : List (List Char)) :
    parseRun (encodeField q f ++ ',' :: tail) .startField [] rec
      = parseRun tail .startField [] (rec ++ [f]) := by
  cases q with
  | true =>
      rw [show encodeField true f = '"' :: (escapeQuotes f ++ ['"']) from rfl]
      rw [List.cons_append, parseRun_cons_startField,
        if_neg (by decide), if_neg (by decide), if_pos rfl]
      rw [List.append_assoc, parse_quoted_body f _ [] rec]
      rw [show (['"'] ++ ',' :: tail) = '"' :: ',' :: tail from rfl]
      rw [parseRun_cons_inQuoted, if_pos rfl]
      rw [parseRun_cons_quoteInQuoted, if_neg (by decide), if_pos rfl]
      simp
  | false =>
      cases f with
      | nil =>
          rw [show encodeField false [] = [] from rfl, List.nil_append]
          rw [parseRun_cons_startField, if_neg (by decide), if_neg (by decide),
            if_neg (by decide), if_pos rfl]
      | cons c f' =>
          obtain ⟨h1, h2, h3, h4⟩ := not_special c (hq rfl c (by simp))
          rw [show encodeField false (c :: f') = c :: f' from rfl]
          rw [List.cons_append, parseRun_cons_startField,
            if_neg h4, if_neg h3, if_neg h2, if_neg h1]
          rw [parse_unquoted_body f' (fun d hd => hq rfl d (by simp [hd])) _ [c] rec]
          rw [parseRun_cons_inField, if_neg (by decide), if_neg (by decide), if_pos rfl]
          simp

theorem parse_field_cr (q : Bool) (f : List Char)
    (hq : q = false → ∀ c ∈ f, isCsvSpecial c = false) (tail : List Char)
    (rec : List (List Char)) :
    parseRun (encodeField q f ++ '\r' :: tail) .startField [] rec
      = parseRun tail .eatCR [] (rec ++ [f]) := by
  cases q with
  | true =>
      rw [show encodeField true f = '"' :: (escapeQuotes f ++ ['"']) from rfl]
      rw [List.cons_append, parseRun_cons_startField,
        if_neg (by decide), if_neg (by decide), if_pos rfl]
      rw [List.append_assoc, parse_quoted_body f _ [] rec]
      rw [show (['"'] ++ '\r' :: tail) = '"' :: '\r' :: tail from rfl]
      rw [parseRun_cons_inQuoted, if_pos rfl]
      rw [parseRun_cons_quoteInQuoted, if_neg (by decide), if_neg (by decide),
        if_neg (by decide), if_pos rfl]
      simp
  | false =>
      cases f with
      | nil =>
          rw [show encodeField false [] = [] from rfl, List.nil_append]
          rw [parseRun_cons_startField, if_neg (by decide), if_pos rfl]
      | cons c f' =>
          obtain ⟨h1, h2, h3, h4⟩ := not_special c (hq rfl c (by simp))
          rw [show encodeField false (c :: f') = c :: f' from rfl]
          rw [List.cons_append, parseRun_cons_startField,
            if_neg h4, if_neg h3, if_neg h2, if_neg h1]
          rw [parse_unquoted_body f' (fun d hd => hq rfl d (by simp [hd])) _ [c] rec]
          rw [parseRun_cons_inField, if_neg (by decide), if_pos rfl]
          simp

theorem bridge_comma (q : Bool) (f : List Char)
    (hq : q = false → ∀ c ∈ f, isCsvSpecial c = false) (tail : List Char) :
    parseRun (encodeField q f ++ ',' :: tail) .startRecord [] []
      = parseRun (encodeField q f ++ ',' :: tail) .startField [] [] := by
  cases q with
  | true =>
      rw [show encodeField true f = '"' :: (escapeQuotes f ++ ['"']) from rfl]
      rw [List.cons_append, parseRun_cons_startRecord, parseRun_cons_startField,
        if_neg (by decide), if_neg (by decide), if_pos rfl,
        if_neg (by decide), if_neg (by decide), if_pos rfl]
  | false =>
      cases f with
      | nil =>
          rw [show encodeField false [] = [] from rfl, List.nil_append]
          rw [parseRun_cons_startRecord, parseRun_cons_startField,
            if_neg (by decide), if_neg (by decide), if_neg (by decide), if_pos rfl,
            if_neg (by decide), if_neg (by decide), if_neg (by decide), if_pos rfl]
          simp
      | cons c f' =>
          obtain ⟨h1, h2, h3, h4⟩ := not_special c (hq rfl c (by simp))
          rw [show encodeField false (c :: f') = c :: f' from rfl]
          rw [List.cons_append, parseRun_cons_startRecord, parseRun_cons_startField,
            if_neg h4, if_neg h3, if_neg h2, if_neg h1,
            if_neg h4, if_neg h3, if_neg h2, if_neg h1]

theorem bridge_cr (q : Bool) (f : List Char)
    (hq : q = false → ∀ c ∈ f, isCsvSpecial c = false)
    (hne : q = false → f ≠ []) (tail : List Char) :
    parseRun (encodeField q f ++ '\r' :: tail) .startRecord [] []
      = parseRun (encodeField q f ++ '\r' :: tail) .startField [] [] := by
  cases q with
  | true =>
      rw [show encodeField true f = '"' :: (escapeQuotes f ++ ['"']) from rfl]
      rw [List.cons_append, parseRun_cons_startRecord, parseRun_cons_startField,
        if_neg (by decide), if_neg (by decide), if_pos rfl,
        if_neg (by decide), if_neg (by decide), if_pos rfl]
  | false =>
      cases f with
      | nil => exact absurd rfl (hne rfl)
      | cons c f' =>
          obtain ⟨h1, h2, h3, h4⟩ := not_special c (hq rfl c (by simp))
          rw [show encodeField false (c :: f') = c :: f' from rfl]
          rw [List.cons_append, parseRun_cons_startRecord, parseRun_cons_startField,
            if_neg h4, if_neg h3, if_neg h2, if_neg h1,
            if_neg h4, if_neg h3, if_neg h2, if_neg h1]

theorem fieldQuoted_false {s : Bool} {g : List Char} (h : fieldQuoted s g = false) :
    ∀ c ∈ g, isCsvSpecial c = false := by
  have h' : g.any isCsvSpecial = false := by
    revert h
    unfold fieldQuoted
    cases g.any isCsvSpecial <;> simp
  intro c hc
  cases hcv : isCsvSpecial c with
  | false => rfl
  | true =>
      have hany : g.any isCsvSpecial = true := List.any_eq_true.mpr ⟨c, hc, hcv⟩
      rw [h'] at hany
      exact Bool.noConfusion hany

theorem parse_fields (flagOf : List Char → Bool) (fs : List (List Char)) :
    (∀ g ∈ fs, flagOf g = false → ∀ c ∈ g, isCsvSpecial c = false) →
    fs ≠ [] →
    ∀ (rest : List Char) (rec : List (List Char)),
      parseRun (joinFieldsComma (fs.map fun g => encodeField (flagOf g) g)
          ++ '\r' :: '\n' :: rest) .startField [] rec
        = (parseRun rest .startRecord [] []).map (fun rs => (rec ++ fs) :: rs) := by
  induction fs with
  | nil => intro _ h; exact absurd rfl h
  | cons f fs' ih =>
      intro hq _ rest rec
      cases fs' with
      | nil =>
          rw [show ([f].map fun g => encodeField (flagOf g) g)
              = [encodeField (flagOf f) f] from rfl]
          rw [show joinFieldsComma [encodeField (flagOf f) f]
              = encodeField (flagOf f) f from rfl]
          rw [parse_field_cr (flagOf f) f (fun h0 => hq f (by simp) h0) _ rec]
          rw [parseRun_cons_eatCR, if_neg (by decide), if_pos rfl]
      | cons f' fs'' =>
          rw [show ((f :: f' :: fs'').map fun g => encodeField (flagOf g) g)
              = encodeField (flagOf f) f
                :: encodeField (flagOf f') f'
                :: (fs''.map fun g => encodeField (flagOf g) g) from rfl]
          rw [show joinFieldsComma (encodeField (flagOf f) f
                :: encodeField (flagOf f') f'
                :: (fs''.map fun g => encodeField (flagOf g) g))
              = encodeField (flagOf f) f
                ++ ',' :: joinFieldsComma (encodeField (flagOf f') f'
                    :: (fs''.map fun g => encodeField (flagOf g) g)) from rfl]
          rw [List.append_assoc, List.cons_append]
          rw [parse_field_comma (flagOf f) f (fun h0 => hq f (by simp) h0) _ rec]
          rw [show (encodeField (flagOf f') f'
                :: (fs''.map fun g => encodeField (flagOf g) g))
              = ((f' :: fs'').map fun g => encodeField (flagOf g) g) from rfl]
          rw [ih (fun g hg h0 => hq g (by simp [hg]) h0) (by simp) rest (rec ++ [f])]
          simp

theorem parse_row_general (flagOf : List Char → Bool) (f : List Char)
    (fs : List (List Char))
    (hq : ∀ g ∈ f :: fs, flagOf g = false → ∀ c ∈ g, isCsvSpecial c = false)
    (hne : fs = [] → flagOf f = false → f ≠ []) (rest : List Char) :
    parseRun (joinFieldsComma ((f :: fs).map fun g => encodeField (flagOf g) g)
        ++ '\r' :: '\n' :: rest) .startRecord [] []
      = (parseRun rest .startRecord [] []).map (fun rs => (f :: fs) :: rs) := by
  cases fs with
  | nil =>
      rw [show ([f].map fun g => encodeField (flagOf g) g)
          = [encodeField (flagOf f) f] from rfl]
      rw [show joinFieldsComma [encodeField (flagOf f) f]
          = encodeField (flagOf f) f from rfl]
      rw [bridge_cr _ _ (fun h0 => hq f (by simp) h0) (hne rfl)]
      rw [parse_field_cr _ _ (fun h0 => hq f (by simp) h0) _ []]
      rw [parseRun_cons_eatCR, if_neg (by decide), if_pos rfl]
      simp
  | cons f' fs'' =>
      rw [show ((f :: f' :: fs'').map fun g => encodeField (flagOf g) g)
          = encodeField (flagOf f) f
            :: encodeField (flagOf f') f'
            :: (fs''.map fun g => encodeField (flagOf g) g) from rfl]
      rw [show joinFieldsComma (encodeField (flagOf f) f
            :: encodeField (flagOf f') f'
            :: (fs''.map fun g => encodeField (flagOf g) g))
          = encodeField (flagOf f) f
            ++ ',' :: joinFieldsComma (encodeField (flagOf f') f'
                :: (fs''.map fun g => encodeField (flagOf g) g)) from rfl]
      rw [List.append_assoc, List.cons_append]
      rw [bridge_comma _ _ (fun h0 => hq f (by simp) h0)]
      rw [parse_field_comma _ _ (fun h0 => hq f (by simp) h0) _ []]
      rw [show (encodeField (flagOf f') f' :: (fs''.map fun g => encodeField (flagOf g) g))
          = ((f' :: fs'').map fun g => encodeField (flagOf g) g) from rfl]
      rw [parse_fields flagOf (f' :: fs'') (fun g hg h0 => hq g (by simp [hg]) h0)
        (by simp) rest ([] ++ [f])]
      simp

theorem parse_record (r : List (List Char)) (rest : List Char) :
    parseRun (encodeRow r ++ rest) .startRecord [] []
      = (parseRun rest .startRecord [] []).map (fun rs => r :: rs) := by
  cases r with
  | nil =>
      rw [show encodeRow [] ++ rest = '\r' :: '\n' :: rest from rfl]
      rw [parseRun_cons_startRecord, if_neg (by decide), if_pos rfl]
      rw [parseRun_cons_eatCR, if_neg (by decide), if_pos rfl]
  | cons f fs =>
      rw [show encodeRow (f :: fs) ++ rest
          = joinFieldsComma ((f :: fs).map fun g =>
              encodeField (fieldQuoted (decide ((f :: fs : List (List Char)).length = 1)
                && g.isEmpty) g) g) ++ ('\r' :: '\n' :: rest) from by
        unfold encodeRow
        rw [List.append_assoc]
        rfl]
      refine parse_row_general _ f fs (fun g _ h0 => fieldQuoted_false h0) ?_ rest
      intro hfs h0 hf
      subst hfs
      subst hf
      simp [fieldQuoted] at h0

theorem parse_rows (rows : List (List (List Char))) :
    parseRun (csvEncodeRows rows) .startRecord [] [] = some rows := by
  induction rows with
  | nil => rfl
  | cons r rows' ih =>
      rw [show csvEncodeRows (r :: rows') = encodeRow r ++ csvEncodeRows rows' from by
        unfold csvEncodeRows
        simp]
      rw [parse_record r _, ih]
      rfl

/-- C8: converting any list of rows to the in-memory CSV buffer and
parsing the buffer back reproduces exactly the original rows in order
(no header row is added), the buffer's read position is zero immediately
after conversion, and empty input produces an empty buffer. -/
theorem csv_round_trip :
    (∀ rows : List (List String),
        csvParse (convert_rows_to_in_memory_csv rows).content = some rows
        ∧ (convert_rows_to_in_memory_csv rows).pos = 0)
    ∧ (convert_rows_to_in_memory_csv []).content = "" := by
  refine ⟨fun rows => ⟨?_, rfl⟩, rfl⟩
  unfold csvParse convert_rows_to_in_memory_csv
  dsimp only
  rw [parse_rows]
  refine congrArg some ?_
  show ((rows.map fun r => r.map String.data).map fun r => r.map String.mk) = rows
  rw [List.map_map]
  conv_rhs => rw [← List.map_id rows]
  refine List.map_congr_left ?_
  intro r _
  simp only [Function.comp_apply, id]
  rw [List.map_map]
  conv_rhs => rw [← List.map_id r]
  refine List.map_congr_left ?_
  intro s _
  rfl
